import Mathlib

/-!
Verification development for a small TCP file server.

The server (server.py) assigns sequential names to connecting clients,
keeps a registry of client records, serves files from a fixed repository
directory over a line-oriented protocol, and rejects connections beyond a
capacity limit.  This file gives a shallow embedding of the pure content
of that program and proves properties of it.

Modelling conventions:
* a filesystem path is a list of components, read from the filesystem
  root (so the Python value `Path("/a/b")` is `["a", "b"]`);
* the repository directory REPO_DIR is a parameter `root : List String`
  (in the program it is the resolved `Path.cwd() / "server_repo"`);
* the filesystem is an association list from absolute paths to file
  contents (a list of byte values); paths absent from the list are not
  regular files (missing, directories, ...);
* timestamps (datetime values) are modelled by their formatted strings;
* a session reads lines from a list; an exhausted list models the peer
  closing the connection (recvline returning None);
* everything sent on a connection is an `OutItem`: either a protocol
  line (sent with a trailing newline) or a chunk of raw file bytes;
* string helpers (strip, lower, split, partition, startswith, splitlines,
  str.join, zero-padded decimal formatting) are redefined here by
  structural recursion over character lists, following the Python
  semantics on the ASCII range used by the protocol.
-/

namespace TCPServer

/-! ## String utilities (embeddings of the Python string operations) -/

/-- Python whitespace test for `str.strip` (ASCII whitespace). -/
def isPySpace (c : Char) : Bool :=
  c == ' ' || c == '\t' || c == '\n' || c == '\r' || c == '\x0b' || c == '\x0c'

/-- Python `str.strip()`: remove leading and trailing whitespace. -/
def pyStrip (s : String) : String :=
  String.mk (((s.data.dropWhile isPySpace).reverse.dropWhile isPySpace).reverse)

/-- ASCII case folding of one character, as `str.lower` acts on the protocol alphabet. -/
def lowerChar (c : Char) : Char :=
  if 65 ≤ c.toNat ∧ c.toNat ≤ 90 then Char.ofNat (c.toNat + 32) else c

/-- Python `str.lower()` on the ASCII range. -/
def lowerStr (s : String) : String := String.mk (s.data.map lowerChar)

/-- Python `s.startswith(p)`. -/
def pyStartsWith (s p : String) : Bool := s.data.take p.data.length == p.data

/-- Split a character list at every occurrence of `sep`, keeping empty pieces. -/
def splitCharAux (sep : Char) : List Char → List (List Char)
  | [] => [[]]
  | c :: cs =>
    if c == sep then [] :: splitCharAux sep cs
    else
      match splitCharAux sep cs with
      | [] => [[c]]
      | h :: t => (c :: h) :: t

/-- Python `s.split("/")`, used by the path model for `Path` component parsing. -/
def splitSlash (s : String) : List String := (splitCharAux '/' s.data).map String.mk

/-- The characters after the first occurrence of `sep` (empty if `sep` is absent). -/
def partAfterChar (sep : Char) : List Char → List Char
  | [] => []
  | c :: cs => if c == sep then cs else partAfterChar sep cs

/-- The third component of Python `s.partition(" ")`. -/
def partitionAfterSpace (s : String) : String := String.mk (partAfterChar ' ' s.data)

/-- Split a character list at every newline, keeping a trailing empty piece. -/
def splitNL : List Char → List (List Char)
  | [] => [[]]
  | c :: cs =>
    if c == '\n' then [] :: splitNL cs
    else
      match splitNL cs with
      | [] => [[c]]
      | h :: t => (c :: h) :: t

/-- Python `str.splitlines()` for strings whose only line terminator is a newline. -/
def pySplitlines (s : String) : List String :=
  if s.data = [] then []
  else
    let parts := splitNL s.data
    let parts2 := if parts.getLast? = some [] then parts.dropLast else parts
    parts2.map String.mk

/-- Python `"\n".join(lines)`. -/
def joinNL : List String → String
  | [] => ""
  | [s] => s
  | s :: rest => s ++ "\n" ++ joinNL rest

/-- Python `" | ".join(names)`. -/
def joinBar : List String → String
  | [] => ""
  | [s] => s
  | s :: rest => s ++ " | " ++ joinBar rest

/-- Python `f"{s:<w}"`: left-justify in a field of width `w`. -/
def padRight (s : String) (w : Nat) : String :=
  s ++ String.mk (List.replicate (w - s.length) ' ')

/-- Lexicographic comparison of strings by code point, as Python string `<=`. -/
def lexLeChars : List Char → List Char → Bool
  | [], _ => true
  | _ :: _, [] => false
  | a :: as, b :: bs => if a == b then lexLeChars as bs else decide (a < b)

/-- Insert a string into a list sorted by `lexLeChars`. -/
def insertSorted (s : String) : List String → List String
  | [] => [s]
  | t :: ts => if lexLeChars s.data t.data then s :: t :: ts else t :: insertSorted s ts

/-- Python `files.sort()` on strings (a stable sort by code-point order). -/
def sortStrings : List String → List String
  | [] => []
  | s :: ss => insertSorted s (sortStrings ss)

/-- The ASCII digit character for the digit value `d`. -/
def decDigit (d : Nat) : Char := Char.ofNat (48 + d)

/-- Decimal digits of `n`, most significant first; fuel-driven structural recursion. -/
def decStrAux : Nat → Nat → List Char
  | 0, _ => []
  | fuel + 1, n => if n = 0 then [] else decStrAux fuel (n / 10) ++ [decDigit (n % 10)]

/-- Python `str(n)` for a natural number. -/
def decStr (n : Nat) : String := if n = 0 then "0" else String.mk (decStrAux n n)

/-- Python `f"{n:02d}"` for a natural number: pad with a leading zero to width 2. -/
def pad2 (n : Nat) : String := if n < 10 then "0" ++ decStr n else decStr n

/-! ## Path model and the repository accessor

Embeds `_safe_join_repo`, `list_repo_files` and `handle_get` from server.py.
`resolveSteps` performs the lexical resolution of `.`, `..` and empty
components that `Path.resolve()` applies (the model is symlink-free, so
lexical resolution and full resolution agree). -/

/-- Resolve path components against an accumulated absolute path, as `Path.resolve`. -/
def resolveSteps (acc : List String) : List String → List String
  | [] => acc
  | c :: cs =>
    if c = "" ∨ c = "." then resolveSteps acc cs
    else if c = ".." then resolveSteps acc.dropLast cs
    else resolveSteps (acc ++ [c]) cs

/-- The resolved path of `(REPO_DIR / filename).resolve()`; an absolute
`filename` replaces the base, as in pathlib. -/
def resolvedCandidate (root : List String) (filename : String) : List String :=
  if pyStartsWith filename "/" then resolveSteps [] (splitSlash filename)
  else resolveSteps root (splitSlash filename)

/-- Python `Path.name`: the final component, or the empty string at the root. -/
def pathName (p : List String) : String := p.getLast?.getD ""

/-- Python `root / n`, where joining the empty name leaves the path unchanged. -/
def joinName (root : List String) (n : String) : List String :=
  if n = "" then root else root ++ [n]

/-- Python `root in p.parents`: `root` is a proper ancestor of `p`. -/
def underRoot (root p : List String) : Prop :=
  p.take root.length = root ∧ root.length < p.length

instance (root p : List String) : Decidable (underRoot root p) :=
  inferInstanceAs (Decidable (p.take root.length = root ∧ root.length < p.length))

/-- Embedding of `_safe_join_repo`: admit the resolved candidate when the
repository root is among its ancestors or it is a direct child of the root;
otherwise fall back to the sentinel path `REPO_DIR / "__INVALID__"`. -/
def safe_join_repo (root : List String) (filename : String) : List String :=
  let candidate := resolvedCandidate root filename
  if underRoot root candidate ∨ candidate = joinName root (pathName candidate)
  then candidate
  else root ++ ["__INVALID__"]

/-- The filesystem: an association list from absolute paths to file bytes. -/
abbrev FS := List (List String × List Nat)

/-- Look a path up in the filesystem; `some` exactly for regular files. -/
def fsLookup : FS → List String → Option (List Nat)
  | [], _ => none
  | e :: es, p => if e.1 = p then some e.2 else fsLookup es p

/-- The base name of `p` when `p` is directly under `root`, else `none`. -/
def baseNameUnder (root p : List String) : Option String :=
  if p.take root.length = root ∧ p.length = root.length + 1 then p.getLast? else none

/-- Embedding of `list_repo_files`: sorted base names of the regular files
directly under the repository root. -/
def list_repo_files (root : List String) (fs : FS) : List String :=
  sortStrings (fs.filterMap (fun e => baseNameUnder root e.1))

/-- The protocol buffer constant `BUFF` from server.py. -/
def BUFF : Nat := 4096

/-- One item written to the connection: a protocol line or raw file bytes. -/
inductive OutItem where
  | line (s : String)
  | data (bs : List Nat)
deriving DecidableEq

/-- The chunks produced by the `f.read(BUFF)` loop; fuel-driven recursion
(the fuel `bs.length` always suffices since `BUFF > 0`). -/
def readChunksAux : Nat → List Nat → List (List Nat)
  | 0, _ => []
  | _ + 1, [] => []
  | fuel + 1, b :: bs => ((b :: bs).take BUFF) :: readChunksAux fuel ((b :: bs).drop BUFF)

/-- The sequence of chunks in which `handle_get` writes a file of bytes `bs`. -/
def readChunks (bs : List Nat) : List (List Nat) := readChunksAux bs.length bs

/-- Embedding of `handle_get`: not-found error, or size header, chunked
bytes, and the `FILEEND` terminator. -/
def handle_get (root : List String) (fs : FS) (filename : String) : List OutItem :=
  match fsLookup fs (safe_join_repo root filename) with
  | none => [OutItem.line "ERROR File not found"]
  | some bytes =>
    OutItem.line ("FILESIZE " ++ decStr bytes.length)
      :: (readChunks bytes).map OutItem.data ++ [OutItem.line "FILEEND"]

/-! ## Client registry

Embeds the `cache` dictionary of server.py with its two mutations: the
registration at the start of `client_thread` and the guarded finish mark
in its `finally` block.  The association list keeps insertion order, as
Python dictionaries do; every mutation below is performed under
`cache_lock` in the program, so a concurrent history is a sequence of
these atomic operations. -/

/-- One client record of the `cache` dictionary. -/
structure ClientInfo where
  addr : String × Nat
  connected_at : String
  finished_at : Option String
deriving DecidableEq

/-- The registry: insertion-ordered mapping from client name to record. -/
abbrev Registry := List (String × ClientInfo)

/-- Dictionary access `cache.get(name)`. -/
def regLookup : Registry → String → Option ClientInfo
  | [], _ => none
  | e :: es, n => if e.1 = n then some e.2 else regLookup es n

/-- Embedding of the registration `cache[name] = {...,"finished_at": None}`:
replace in place if the key exists, otherwise append. -/
def registerClient : Registry → String → String × Nat → String → Registry
  | [], n, a, t => [(n, ClientInfo.mk a t none)]
  | e :: es, n, a, t =>
    if e.1 = n then (n, ClientInfo.mk a t none) :: es
    else e :: registerClient es n a t

/-- Embedding of the teardown mark: set `finished_at` only when the name is
present and its `finished_at` is still `None`. -/
def markFinished : Registry → String → String → Registry
  | [], _, _ => []
  | e :: es, n, t =>
    if e.1 = n then
      (if e.2.finished_at = none
       then (e.1, ClientInfo.mk e.2.addr e.2.connected_at (some t)) :: es
       else e :: es)
    else e :: markFinished es n t

/-- The operations the program performs on the registry. -/
inductive RegOp where
  | reg (name : String) (addr : String × Nat) (t : String)
  | finish (name : String) (t : String)

/-- Apply one registry operation. -/
def applyOp (c : Registry) : RegOp → Registry
  | RegOp.reg n a t => registerClient c n a t
  | RegOp.finish n t => markFinished c n t

/-- Apply a sequence of registry operations in order. -/
def applyOps (c : Registry) (ops : List RegOp) : Registry := ops.foldl applyOp c

/-- A sequence of operations the program can emit: every registration uses a
name that is fresh at the moment it runs (the name assigner never repeats a
name), finish marks are unrestricted. -/
def wfOps : Registry → List RegOp → Bool
  | _, [] => true
  | c, op :: ops =>
    (match op with
     | RegOp.reg n _ _ => (regLookup c n).isNone
     | RegOp.finish _ _ => true) && wfOps (applyOp c op) ops

/-! ## Status rendering -/

/-- The header line of the status table. -/
def statusHeader : String :=
  padRight "Name" 10 ++ " " ++ padRight "IP:Port" 22 ++ " " ++
    padRight "Connected At" 20 ++ " " ++ padRight "Finished At" 20

/-- The separator line `"-" * len(header)`. -/
def statusDashes : String := String.mk (List.replicate statusHeader.length '-')

/-- One table row for a registry entry. -/
def statusRow (e : String × ClientInfo) : String :=
  padRight e.1 10 ++ " " ++
    padRight (e.2.addr.1 ++ ":" ++ decStr e.2.addr.2) 22 ++ " " ++
    padRight e.2.connected_at 20 ++ " " ++
    padRight (match e.2.finished_at with | some t => t | none => "-") 20

/-- Embedding of `render_status`: the no-clients line, or the joined table
with one row per registry entry in insertion order. -/
def render_status (c : Registry) : String :=
  if c = [] then "No clients connected yet."
  else joinNL (statusHeader :: statusDashes :: c.map statusRow)

/-- The lines sent for a `status` command: the markers around the rendered
report, sent line by line after `splitlines()`. -/
def statusOut (c : Registry) : List OutItem :=
  OutItem.line "STATUS-BEGIN"
    :: (pySplitlines (render_status c)).map OutItem.line
    ++ [OutItem.line "STATUS-END"]

/-! ## Connection acceptor -/

/-- The capacity constant `MAX_CLIENTS` from server.py. -/
def MAX_CLIENTS : Nat := 3

/-- The number of registry records with `finished_at` unset. -/
def activeCount (c : Registry) : Nat :=
  (c.filter (fun p => p.2.finished_at.isNone)).length

/-- What the acceptor does with one accepted connection: an optional BUSY
line, whether a session thread is spawned, and the registry afterwards. -/
structure AcceptDecision where
  busyMsg : Option String
  spawn : Bool
  cacheAfter : Registry
deriving DecidableEq

/-- Embedding of the capacity gate in `main`: at or above capacity the
connection is sent one BUSY line and closed with the registry untouched;
otherwise a session is spawned. -/
def acceptStep (c : Registry) : AcceptDecision :=
  if MAX_CLIENTS ≤ activeCount c then
    AcceptDecision.mk
      (some ("BUSY Server is at capacity (" ++ decStr MAX_CLIENTS ++ "). Try again later."))
      false c
  else AcceptDecision.mk none true c

/-! ## Name assigner -/

/-- The name issued for counter value `n`. -/
def clientNameOf (n : Nat) : String := "Client" ++ pad2 n

/-- Embedding of `assign_client_name`: increment the counter under the lock
and return the zero-padded sequential name with the new counter. -/
def assign_client_name (counter : Nat) : String × Nat :=
  (clientNameOf (counter + 1), counter + 1)

/-- The names returned by `k` successive calls starting from counter `c`. -/
def assignIter (c : Nat) : Nat → List String
  | 0 => []
  | k + 1 =>
    let r := assign_client_name c
    r.1 :: assignIter r.2 k

/-! ## Session handler -/

/-- The reply lines for a `list` command. -/
def listOut (root : List String) (fs : FS) : List OutItem :=
  let files := list_repo_files root fs
  if files = [] then [OutItem.line "FILES <empty>"]
  else [OutItem.line ("FILES " ++ joinBar files)]

/-- Embedding of the command loop of `client_thread`: read a line, strip it,
skip it when blank, otherwise dispatch on the case-folded verb; `exit` replies
`BYE` and stops; an exhausted input list models the peer disconnecting. -/
def commandLoop (root : List String) (fs : FS) (c : Registry) : List String → List OutItem
  | [] => []
  | line :: rest =>
    let cmd := pyStrip line
    if cmd = "" then commandLoop root fs c rest
    else
      let low := lowerStr cmd
      if low = "exit" then [OutItem.line "BYE"]
      else if low = "list" then listOut root fs ++ commandLoop root fs c rest
      else if pyStartsWith low "get " then
        (let filename := pyStrip (partitionAfterSpace cmd)
         if filename = "" then [OutItem.line "ERROR Usage: get <filename>"]
         else handle_get root fs filename) ++ commandLoop root fs c rest
      else if low = "status" then statusOut c ++ commandLoop root fs c rest
      else OutItem.line (cmd ++ " ACK") :: commandLoop root fs c rest

/-- Everything a session produced: the items written and the registry at
teardown. -/
structure SessionResult where
  out : List OutItem
  cache : Registry
deriving DecidableEq

/-- Embedding of `client_thread`: register the record, send the assigned
name, check the handshake echo, run the command loop, and in all cases mark
the record finished at teardown (the `finally` block). -/
def client_thread (root : List String) (fs : FS) (c : Registry) (name : String)
    (addr : String × Nat) (t0 t1 : String) (inputs : List String) : SessionResult :=
  let c1 := registerClient c name addr t0
  let body : List OutItem :=
    match inputs with
    | [] => [OutItem.line "ERROR Expected: NAME <your_name>"]
    | l :: rest =>
      if pyStartsWith l "NAME " then commandLoop root fs c1 rest
      else [OutItem.line "ERROR Expected: NAME <your_name>"]
  SessionResult.mk (OutItem.line ("NAME " ++ name) :: body) (markFinished c1 name t1)

/-! ## General helper lemmas -/

/-- Two strings with the same character data are equal. -/
theorem stringDataEq {s t : String} (h : s.data = t.data) : s = t := by
  cases s; cases t; cases h; rfl

/-- Digit characters are injective on digit values. -/
theorem decDigit_inj10 : ∀ d < 10, ∀ e < 10, decDigit d = decDigit e → d = e := by decide

/-- The fuel-driven digit renderer agrees with `Nat.digits` when the fuel suffices. -/
theorem decStrAux_eq : ∀ (fuel n : Nat), n ≤ fuel →
    decStrAux fuel n = ((Nat.digits 10 n).map decDigit).reverse := by
  intro fuel
  induction fuel with
  | zero =>
    intro n hn
    have h0 : n = 0 := by omega
    subst h0; simp [decStrAux]
  | succ f ih =>
    intro n hn
    by_cases h0 : n = 0
    · subst h0; simp [decStrAux]
    · have hdig : Nat.digits 10 n = n % 10 :: Nat.digits 10 (n / 10) :=
        Nat.digits_def' (by norm_num) (Nat.pos_of_ne_zero h0)

      have hdiv : n / 10 ≤ f := by
        have : n / 10 < n := Nat.div_lt_self (Nat.pos_of_ne_zero h0) (by norm_num)
        omega
      simp [decStrAux, h0, ih _ hdiv, hdig]

/-- The character data of `decStr`. -/
theorem decStr_data (n : Nat) :
    (decStr n).data = if n = 0 then ['0'] else ((Nat.digits 10 n).map decDigit).reverse := by
  by_cases h : n = 0
  · subst h; rfl
  · rw [decStr, if_neg h, if_neg h]
    show decStrAux n n = _
    exact decStrAux_eq n n le_rfl

/-- Lists of digit values below ten are separated by their digit characters. -/
theorem map_decDigit_inj : ∀ (l1 l2 : List Nat), (∀ d ∈ l1, d < 10) → (∀ d ∈ l2, d < 10) →
    l1.map decDigit = l2.map decDigit → l1 = l2 := by
  intro l1
  induction l1 with
  | nil => intro l2 _ _ h; cases l2 <;> simp_all
  | cons a l ih =>
    intro l2 h1 h2 h
    cases l2 with
    | nil => simp_all
    | cons b l2t =>
      simp only [List.map_cons, List.cons.injEq] at h
      have ha : a < 10 := h1 a (by simp)
      have hb : b < 10 := h2 b (by simp)
      have hab : a = b := decDigit_inj10 a ha b hb h.1
      have : l = l2t := ih l2t (fun d hd => h1 d (by simp [hd])) (fun d hd => h2 d (by simp [hd])) h.2
      simp [hab, this]

/-- Every digit produced by `Nat.digits 10` is below ten. -/
theorem digits_lt_ten {n d : Nat} (h : d ∈ Nat.digits 10 n) : d < 10 :=
  Nat.digits_lt_base (by norm_num) h

/-- Python decimal rendering of naturals is injective. -/
theorem decStr_inj : Function.Injective decStr := by
  intro n m h
  have h2 : (decStr n).data = (decStr m).data := congrArg String.data h
  rw [decStr_data, decStr_data] at h2
  by_cases hn : n = 0 <;> by_cases hm : m = 0
  · omega
  · exfalso
    rw [if_pos hn, if_neg hm] at h2
    have h3 : (Nat.digits 10 m).map decDigit = ['0'] := by
      have := congrArg List.reverse h2
      simpa using this.symm
    rcases hd : Nat.digits 10 m with _ | ⟨a, l⟩
    · rw [hd] at h3; simp at h3
    · rw [hd] at h3
      simp only [List.map_cons, List.cons.injEq] at h3
      have hl : l = [] := by
        cases l with
        | nil => rfl
        | cons x xs => simp at h3
      subst hl
      have ha : a < 10 := digits_lt_ten (by rw [hd]; simp)
      have ha0 : a = 0 := decDigit_inj10 a ha 0 (by norm_num) h3.1
      have : m = Nat.ofDigits 10 (Nat.digits 10 m) := (Nat.ofDigits_digits 10 m).symm
      rw [hd, ha0] at this
      simp [Nat.ofDigits] at this
      exact hm this
  · exfalso
    rw [if_neg hn, if_pos hm] at h2
    have h3 : (Nat.digits 10 n).map decDigit = ['0'] := by
      have := congrArg List.reverse h2
      simpa using this
    rcases hd : Nat.digits 10 n with _ | ⟨a, l⟩
    · rw [hd] at h3; simp at h3
    · rw [hd] at h3
      simp only [List.map_cons, List.cons.injEq] at h3
      have hl : l = [] := by
        cases l with
        | nil => rfl
        | cons x xs => simp at h3
      subst hl
      have ha : a < 10 := digits_lt_ten (by rw [hd]; simp)
      have ha0 : a = 0 := decDigit_inj10 a ha 0 (by norm_num) h3.1
      have : n = Nat.ofDigits 10 (Nat.digits 10 n) := (Nat.ofDigits_digits 10 n).symm
      rw [hd, ha0] at this
      simp [Nat.ofDigits] at this
      exact hn this
  · rw [if_neg hn, if_neg hm] at h2
    have h3 : (Nat.digits 10 n).map decDigit = (Nat.digits 10 m).map decDigit := by
      have := congrArg List.reverse h2
      simpa using this
    have h4 : Nat.digits 10 n = Nat.digits 10 m :=
      map_decDigit_inj _ _ (fun d hd => digits_lt_ten hd) (fun d hd => digits_lt_ten hd) h3
    calc n = Nat.ofDigits 10 (Nat.digits 10 n) := (Nat.ofDigits_digits 10 n).symm
      _ = Nat.ofDigits 10 (Nat.digits 10 m) := by rw [h4]
      _ = m := Nat.ofDigits_digits 10 m

/-- The leading digit character of a positive number is never the zero digit. -/
theorem decStr_head_ne_zero {m : Nat} (hm : ¬ m = 0) (c : List Char)
    (h : ('0' :: c) = (decStr m).data) : False := by
  rw [decStr_data, if_neg hm] at h
  rcases List.eq_nil_or_concat (Nat.digits 10 m) with hnil | ⟨L, b, hd⟩
  · exact (Nat.digits_ne_nil_iff_ne_zero.mpr hm) hnil
  · rw [List.concat_eq_append] at hd
    rw [hd] at h
    simp only [List.map_append, List.map_cons, List.map_nil, List.reverse_append,
      List.reverse_cons, List.reverse_nil, List.nil_append, List.cons_append,
      List.cons.injEq] at h
    have hb10 : b < 10 := digits_lt_ten (by rw [hd]; simp)
    have hb0 : b = 0 := decDigit_inj10 b hb10 0 (by norm_num) h.1.symm
    have hlast : (Nat.digits 10 m).getLast (Nat.digits_ne_nil_iff_ne_zero.mpr hm) ≠ 0 :=
      Nat.getLast_digit_ne_zero 10 hm
    have : (Nat.digits 10 m).getLast? = some b := by rw [hd]; exact List.getLast?_concat L
    rw [List.getLast?_eq_getLast _ (Nat.digits_ne_nil_iff_ne_zero.mpr hm)] at this
    have := Option.some.inj this
    rw [this] at hlast
    exact hlast hb0

/-- Python zero-padded two-digit formatting is injective. -/
theorem pad2_inj : Function.Injective pad2 := by
  intro n m h
  by_cases hn : n < 10 <;> by_cases hm : m < 10
  · rw [pad2, pad2, if_pos hn, if_pos hm] at h
    have h2 : ('0' :: (decStr n).data) = ('0' :: (decStr m).data) := congrArg String.data h
    exact decStr_inj (stringDataEq (List.cons.inj h2).2)
  · exfalso
    rw [pad2, pad2, if_pos hn, if_neg hm] at h
    have h2 : ('0' :: (decStr n).data) = (decStr m).data := congrArg String.data h
    exact decStr_head_ne_zero (by omega) _ h2
  · exfalso
    rw [pad2, pad2, if_neg hn, if_pos hm] at h
    have h2 : ('0' :: (decStr m).data) = (decStr n).data := (congrArg String.data h).symm
    exact decStr_head_ne_zero (by omega) _ h2
  · rw [pad2, pad2, if_neg hn, if_neg hm] at h
    exact decStr_inj h

/-- The sequential client names are injective in the counter value. -/
theorem clientNameOf_inj : Function.Injective clientNameOf := by
  intro n m h
  have h2 : ("Client".data ++ (pad2 n).data) = ("Client".data ++ (pad2 m).data) :=
    congrArg String.data h
  exact pad2_inj (stringDataEq (List.append_cancel_left h2))

/-- The names of `k` successive assigner calls starting at counter `c`. -/
theorem assignIter_eq : ∀ (k c : Nat),
    assignIter c k = (List.range k).map (fun i => clientNameOf (c + i + 1)) := by
  intro k
  induction k with
  | zero => intro c; rfl
  | succ kk ih =>
    intro c
    show clientNameOf (c + 1) :: assignIter (c + 1) kk = _
    rw [List.range_succ_eq_map, ih (c + 1)]
    simp only [List.map_cons, List.map_map]
    refine congrArg₂ List.cons rfl ?_
    refine List.map_congr_left (fun i _ => ?_)
    show clientNameOf (c + 1 + i + 1) = clientNameOf (c + (i + 1) + 1)
    exact congrArg clientNameOf (by omega)

/-! ## Chunking lemmas -/

/-- Concatenating the read chunks restores the file bytes (fuel version). -/
theorem readChunksAux_flatten : ∀ (fuel : Nat) (bs : List Nat), bs.length ≤ fuel →
    (readChunksAux fuel bs).flatten = bs := by
  intro fuel
  induction fuel with
  | zero =>
    intro bs h
    have h0 : bs = [] := List.eq_nil_of_length_eq_zero (by omega)
    subst h0; rfl
  | succ f ih =>
    intro bs h
    cases bs with
    | nil => rfl
    | cons b t =>
      show (((b :: t).take BUFF) :: readChunksAux f ((b :: t).drop BUFF)).flatten = b :: t
      rw [List.flatten_cons, ih _ (by simp [List.length_drop, BUFF] at *; omega)]
      exact List.take_append_drop BUFF (b :: t)

/-- Concatenating the read chunks restores the file bytes. -/
theorem readChunks_flatten (bs : List Nat) : (readChunks bs).flatten = bs :=
  readChunksAux_flatten bs.length bs le_rfl

/-- Every read chunk is bounded by the protocol buffer constant (fuel version). -/
theorem readChunksAux_le : ∀ (fuel : Nat) (bs : List Nat),
    ∀ ch ∈ readChunksAux fuel bs, ch.length ≤ BUFF := by
  intro fuel
  induction fuel with
  | zero => intro bs ch h; simp [readChunksAux] at h
  | succ f ih =>
    intro bs ch h
    cases bs with
    | nil => simp [readChunksAux] at h
    | cons b t =>
      have h2 : ch = (b :: t).take BUFF ∨ ch ∈ readChunksAux f ((b :: t).drop BUFF) := by
        simpa [readChunksAux] using h
      rcases h2 with h2 | h2
      · subst h2; simp [List.length_take]
      · exact ih _ ch h2

/-! ## Command dispatch helpers -/

/-- Dispatch of a well-formed `get` line: a line that is exactly `get `
followed by a stripped, nonempty filename streams that file and continues
the loop. -/
theorem commandLoop_get_literal (root : List String) (fs : FS) (c : Registry)
    (filename : String) (rest : List String)
    (hs : pyStrip ("get " ++ filename) = "get " ++ filename)
    (hf : pyStrip filename = filename) (hne : filename ≠ "") :
    commandLoop root fs c (("get " ++ filename) :: rest)
      = handle_get root fs filename ++ commandLoop root fs c rest := by
  have hne1 : ¬ (("get " ++ filename) = "") := of_decide_eq_false rfl
  have hnexit : ¬ (lowerStr ("get " ++ filename) = "exit") := of_decide_eq_false rfl
  have hnlist : ¬ (lowerStr ("get " ++ filename) = "list") := of_decide_eq_false rfl
  have hget : pyStartsWith (lowerStr ("get " ++ filename)) "get " = true := rfl
  have hpart : partitionAfterSpace ("get " ++ filename) = filename := rfl
  simp only [commandLoop]
  rw [hs, if_neg hne1, if_neg hnexit, if_neg hnlist, if_pos hget, hpart, hf, if_neg hne]

/-! ## Claim theorems -/

/-- Claim C4: distinct calls to the name assigner return distinct names, and
the names are issued in sequential zero-padded order `Client01`, `Client02`,
... (the counter value grows by one per call); a name is never reused later
in the sequence.  Calls are serialized by `client_counter_lock`, so any
concurrent history is one such call sequence. -/
theorem claim_C4 (k : Nat) :
    assignIter 0 k = (List.range k).map (fun i => clientNameOf (i + 1))
    ∧ (assignIter 0 k).Pairwise (fun a b => a ≠ b)
    ∧ Function.Injective clientNameOf := by
  have h := assignIter_eq k 0
  have h0 : (List.range k).map (fun i => clientNameOf (0 + i + 1))
      = (List.range k).map (fun i => clientNameOf (i + 1)) :=
    List.map_congr_left (fun i _ => congrArg clientNameOf (by omega))
  refine ⟨by rw [h, h0], ?_, clientNameOf_inj⟩
  rw [h, h0, List.pairwise_map]
  refine (List.pairwise_lt_range k).imp ?_
  intro a b hab hEq
  have := clientNameOf_inj hEq
  omega

/-- Claim C5: a `get` for a file of K bytes under the repository root emits
the `FILESIZE K` line, then exactly the K file bytes in chunks bounded by
the protocol buffer constant, then the `FILEEND` line; and repeating the
same request on an unchanged store reproduces the same output (the last
conjunct runs two identical requests through the command loop). -/
theorem claim_C5 (root : List String) (fs : FS) (filename : String) (bytes : List Nat)
    (h : fsLookup fs (safe_join_repo root filename) = some bytes) :
    handle_get root fs filename
      = OutItem.line ("FILESIZE " ++ decStr bytes.length)
        :: (readChunks bytes).map OutItem.data ++ [OutItem.line "FILEEND"]
    ∧ (readChunks bytes).flatten = bytes
    ∧ (∀ ch ∈ readChunks bytes, ch.length ≤ BUFF)
    ∧ (∀ (c : Registry) (rest : List String),
        pyStrip ("get " ++ filename) = "get " ++ filename →
        pyStrip filename = filename → filename ≠ "" →
        commandLoop root fs c (("get " ++ filename) :: ("get " ++ filename) :: rest)
          = handle_get root fs filename
            ++ (handle_get root fs filename ++ commandLoop root fs c rest)) := by
  refine ⟨?_, readChunks_flatten bytes, readChunksAux_le _ _, ?_⟩
  · unfold handle_get
    rw [h]
  · intro c rest hs hf hne
    rw [commandLoop_get_literal root fs c filename _ hs hf hne,
      commandLoop_get_literal root fs c filename rest hs hf hne]

/-- Claim C10: a filename containing a path separator whose resolved path is
a regular file strictly below a subdirectory of the repository root is
admitted by the resolver and streamed, not rejected: witnessed by
`sub/file.txt`, whose resolved path has the root as a proper ancestor. -/
theorem claim_C10 :
    safe_join_repo ["app", "server_repo"] "sub/file.txt"
      = ["app", "server_repo", "sub", "file.txt"]
    ∧ underRoot ["app", "server_repo"] ["app", "server_repo", "sub", "file.txt"]
    ∧ handle_get ["app", "server_repo"]
        [(["app", "server_repo", "sub", "file.txt"], [104, 105])] "sub/file.txt"
        = [OutItem.line "FILESIZE 2", OutItem.data [104, 105], OutItem.line "FILEEND"]
    ∧ handle_get ["app", "server_repo"]
        [(["app", "server_repo", "sub", "file.txt"], [104, 105])] "sub/file.txt"
        ≠ [OutItem.line "ERROR File not found"] := by decide

/-- Claim C2: when the acceptor sees at least `MAX_CLIENTS` registry records
with `finished_at` unset, the connection gets the single BUSY line and is
closed with no session spawned and the registry unchanged. -/
theorem claim_C2 (c : Registry) (h : MAX_CLIENTS ≤ activeCount c) :
    acceptStep c
      = AcceptDecision.mk (some "BUSY Server is at capacity (3). Try again later.")
          false c := by
  unfold acceptStep
  rw [if_pos h]
  have hmsg : ("BUSY Server is at capacity (" ++ decStr MAX_CLIENTS ++ "). Try again later.")
      = "BUSY Server is at capacity (3). Try again later." := by decide
  rw [hmsg]

/-! ## Registry lemmas -/

/-- Registration stores a record with `finished_at` unset. -/
theorem regLookup_registerClient_self (c : Registry) (n : String) (a : String × Nat)
    (t : String) : regLookup (registerClient c n a t) n = some (ClientInfo.mk a t none) := by
  induction c with
  | nil => simp [registerClient, regLookup]
  | cons e es ih =>
    by_cases h : e.1 = n
    · simp [registerClient, h, regLookup]
    · simp [registerClient, h, regLookup, ih]

/-- Registration of one name leaves other lookups unchanged. -/
theorem regLookup_registerClient_ne (c : Registry) (n m : String) (a : String × Nat)
    (t : String) (h : m ≠ n) : regLookup (registerClient c n a t) m = regLookup c m := by
  induction c with
  | nil => simp [registerClient, regLookup, Ne.symm h]
  | cons e es ih =>
    by_cases h2 : e.1 = n
    · subst h2
      simp [registerClient, regLookup, Ne.symm h]
    · by_cases h3 : e.1 = m
      · simp [registerClient, regLookup, h2, h3, h]
      · simp [registerClient, regLookup, h2, h3, ih]

/-- Marking an unfinished record sets its timestamp. -/
theorem markFinished_of_none (c : Registry) (n : String) (t : String) (i : ClientInfo)
    (hl : regLookup c n = some i) (hfin : i.finished_at = none) :
    regLookup (markFinished c n t) n = some (ClientInfo.mk i.addr i.connected_at (some t)) := by
  induction c with
  | nil => simp [regLookup] at hl
  | cons e es ih =>
    by_cases h : e.1 = n
    · have he2 : e.2 = i := by simpa [regLookup, h] using hl
      simp [markFinished, h, he2, hfin, regLookup]
    · have hl2 : regLookup es n = some i := by simpa [regLookup, h] using hl
      simp [markFinished, h, regLookup, ih hl2]

/-- Marking an already finished record changes nothing at all. -/
theorem markFinished_of_some (c : Registry) (n : String) (t u : String) (i : ClientInfo)
    (hl : regLookup c n = some i) (hfin : i.finished_at = some u) :
    markFinished c n t = c := by
  induction c with
  | nil => rfl
  | cons e es ih =>
    by_cases h : e.1 = n
    · have he2 : e.2 = i := by simpa [regLookup, h] using hl
      simp [markFinished, h, he2, hfin]
    · have hl2 : regLookup es n = some i := by simpa [regLookup, h] using hl
      simp [markFinished, h, ih hl2]

/-- Marking one name finished leaves other lookups unchanged. -/
theorem regLookup_markFinished_ne (c : Registry) (n m : String) (t : String)
    (h : m ≠ n) : regLookup (markFinished c n t) m = regLookup c m := by
  induction c with
  | nil => rfl
  | cons e es ih =>
    by_cases h2 : e.1 = n
    · subst h2
      by_cases hf : e.2.finished_at = none
      · simp [markFinished, hf, regLookup, Ne.symm h]
      · simp [markFinished, hf, regLookup, Ne.symm h]
    · by_cases h3 : e.1 = m
      · simp [markFinished, h2, regLookup, h3, h]
      · simp [markFinished, h2, regLookup, h3, ih]

/-- A record whose `finished_at` is set survives any program-generated
sequence of registry operations unchanged. -/
theorem regPreserved (n : String) (i : ClientInfo) (u : String) :
    ∀ (ops : List RegOp) (c : Registry), regLookup c n = some i → i.finished_at = some u →
      wfOps c ops = true → regLookup (applyOps c ops) n = some i := by
  intro ops
  induction ops with
  | nil => intro c hl _ _; exact hl
  | cons op rest ih =>
    intro c hl hfin hwf
    cases op with
    | reg n2 a t =>
      rw [show wfOps c (RegOp.reg n2 a t :: rest)
          = ((regLookup c n2).isNone && wfOps (applyOp c (RegOp.reg n2 a t)) rest) from rfl] at hwf
      rw [Bool.and_eq_true] at hwf
      obtain ⟨h1, h2⟩ := hwf
      have hne : n ≠ n2 := by
        intro hEq; rw [← hEq, hl] at h1; simp at h1
      have hstep := (regLookup_registerClient_ne c n2 n a t hne).trans hl
      exact ih _ hstep hfin h2
    | finish n2 t =>
      rw [show wfOps c (RegOp.finish n2 t :: rest)
          = (true && wfOps (applyOp c (RegOp.finish n2 t)) rest) from rfl] at hwf
      rw [Bool.true_and] at hwf
      have hstep : regLookup (applyOp c (RegOp.finish n2 t)) n = some i := by
        by_cases hne : n = n2
        · subst hne
          show regLookup (markFinished c n t) n = some i
          rw [markFinished_of_some c n t u i hl hfin]
          exact hl
        · exact (regLookup_markFinished_ne c n2 n t hne).trans hl
      exact ih _ hstep hfin hwf

/-- Claim C3: `finished_at` is unset immediately after registration, the
session teardown sets it to the teardown timestamp, and once set it is
never cleared or overwritten by any later program-generated registry
operation (fresh-name registrations and guarded finish marks). -/
theorem claim_C3 (c : Registry) (n : String) (a : String × Nat) (t0 : String) :
    regLookup (registerClient c n a t0) n = some (ClientInfo.mk a t0 none)
    ∧ (∀ (root : List String) (fs : FS) (t1 : String) (inputs : List String),
        regLookup ((client_thread root fs c n a t0 t1 inputs).cache) n
          = some (ClientInfo.mk a t0 (some t1)))
    ∧ (∀ (c2 : Registry) (i : ClientInfo) (u : String) (ops : List RegOp),
        regLookup c2 n = some i → i.finished_at = some u → wfOps c2 ops = true →
        regLookup (applyOps c2 ops) n = some i) := by
  refine ⟨regLookup_registerClient_self c n a t0, ?_, ?_⟩
  · intro root fs t1 inputs
    show regLookup (markFinished (registerClient c n a t0) n t1) n = _
    exact markFinished_of_none _ n t1 _ (regLookup_registerClient_self c n a t0) rfl
  · intro c2 i u ops h1 h2 h3
    exact regPreserved n i u ops c2 h1 h2 h3

/-- Witness for claim C3 at concrete inputs: a fresh registration has no
finish timestamp, a full session sets it, and a later fresh registration
plus finish marks (including a second mark of the same name) leave it
untouched. -/
theorem claim_C3_witness :
    regLookup (registerClient [] "Client01" ("127.0.0.1", 40001) "t0") "Client01"
      = some (ClientInfo.mk ("127.0.0.1", 40001) "t0" none)
    ∧ regLookup ((client_thread ["app"] [] [] "Client01" ("127.0.0.1", 40001)
        "t0" "t1" ["NAME x", "exit"]).cache) "Client01"
      = some (ClientInfo.mk ("127.0.0.1", 40001) "t0" (some "t1"))
    ∧ regLookup (applyOps [("Client01", ClientInfo.mk ("127.0.0.1", 40001) "t0" (some "t1"))]
        [RegOp.reg "Client02" ("10.0.0.2", 40002) "t2",
         RegOp.finish "Client01" "t3", RegOp.finish "Client02" "t4"]) "Client01"
      = some (ClientInfo.mk ("127.0.0.1", 40001) "t0" (some "t1")) := by
  have h := claim_C3 [] "Client01" ("127.0.0.1", 40001) "t0"
  exact ⟨h.1, h.2.1 ["app"] [] "t1" ["NAME x", "exit"],
    h.2.2 _ _ "t1" _ (by decide) rfl (by decide)⟩

/-- Claim C7: when the handshake line is absent (peer closed before sending
one) or does not begin with `NAME `, the session sends exactly the assigned
name line and one error line, marks the record finished, and never reaches
the command loop. -/
theorem claim_C7 (root : List String) (fs : FS) (c : Registry) (name : String)
    (addr : String × Nat) (t0 t1 : String) (inputs : List String)
    (h : inputs = [] ∨ ∃ l rest, inputs = l :: rest ∧ pyStartsWith l "NAME " = false) :
    (client_thread root fs c name addr t0 t1 inputs).out
      = [OutItem.line ("NAME " ++ name), OutItem.line "ERROR Expected: NAME <your_name>"]
    ∧ regLookup ((client_thread root fs c name addr t0 t1 inputs).cache) name
      = some (ClientInfo.mk addr t0 (some t1)) := by
  constructor
  · rcases h with h | ⟨l, rest, hin, hl⟩
    · subst h; rfl
    · subst hin
      simp [client_thread, hl]
  · show regLookup (markFinished (registerClient c name addr t0) name t1) name = _
    exact markFinished_of_none _ name t1 _ (regLookup_registerClient_self c name addr t0) rfl

/-- Witness for claim C7 at a concrete input: the echo line `hello` does not
begin with `NAME `, the session replies with the two lines only, and the
record ends finished. -/
theorem claim_C7_witness :
    pyStartsWith "hello" "NAME " = false
    ∧ (client_thread ["app"] [] [] "Client01" ("127.0.0.1", 40001) "t0" "t1" ["hello"]).out
      = [OutItem.line "NAME Client01", OutItem.line "ERROR Expected: NAME <your_name>"]
    ∧ regLookup ((client_thread ["app"] [] [] "Client01" ("127.0.0.1", 40001)
        "t0" "t1" ["hello"]).cache) "Client01"
      = some (ClientInfo.mk ("127.0.0.1", 40001) "t0" (some "t1")) := by
  have h := claim_C7 ["app"] [] [] "Client01" ("127.0.0.1", 40001) "t0" "t1" ["hello"]
    (Or.inr ⟨"hello", [], rfl, by decide⟩)
  exact ⟨by decide, h.1.trans (by decide), h.2⟩

/-- Witness for claim C2 at a concrete registry with three active records. -/
theorem claim_C2_witness :
    MAX_CLIENTS ≤ activeCount
      [("Client01", ClientInfo.mk ("10.0.0.1", 1) "t" none),
       ("Client02", ClientInfo.mk ("10.0.0.2", 2) "t" none),
       ("Client03", ClientInfo.mk ("10.0.0.3", 3) "t" none)]
    ∧ acceptStep
      [("Client01", ClientInfo.mk ("10.0.0.1", 1) "t" none),
       ("Client02", ClientInfo.mk ("10.0.0.2", 2) "t" none),
       ("Client03", ClientInfo.mk ("10.0.0.3", 3) "t" none)]
      = AcceptDecision.mk (some "BUSY Server is at capacity (3). Try again later.") false
        [("Client01", ClientInfo.mk ("10.0.0.1", 1) "t" none),
         ("Client02", ClientInfo.mk ("10.0.0.2", 2) "t" none),
         ("Client03", ClientInfo.mk ("10.0.0.3", 3) "t" none)] :=
  ⟨by decide, claim_C2 _ (by decide)⟩

/-- Witness for claim C5 at a concrete three-byte file. -/
theorem claim_C5_witness :
    fsLookup [(["app", "server_repo", "f.bin"], [1, 2, 3])]
        (safe_join_repo ["app", "server_repo"] "f.bin") = some [1, 2, 3]
    ∧ handle_get ["app", "server_repo"] [(["app", "server_repo", "f.bin"], [1, 2, 3])] "f.bin"
        = [OutItem.line "FILESIZE 3", OutItem.data [1, 2, 3], OutItem.line "FILEEND"] :=
  ⟨by decide,
    ((claim_C5 ["app", "server_repo"] [(["app", "server_repo", "f.bin"], [1, 2, 3])]
      "f.bin" [1, 2, 3] (by decide)).1).trans (by decide)⟩

/-! ## Line splitting and joining lemmas -/

/-- The character data of an appended string. -/
theorem data_append (s t : String) : (s ++ t).data = s.data ++ t.data := rfl

/-- Splitting never yields an empty list of pieces. -/
theorem splitNL_ne_nil (cs : List Char) : splitNL cs ≠ [] := by
  cases cs with
  | nil => simp [splitNL]
  | cons c cs2 =>
    simp only [splitNL]
    split
    · simp
    · split <;> simp

/-- A newline-free character list splits into a single piece. -/
theorem splitNL_no_nl (cs : List Char) (h : ∀ ch ∈ cs, ch ≠ '\n') : splitNL cs = [cs] := by
  induction cs with
  | nil => rfl
  | cons c cs2 ih =>
    have hc : ¬ ((c == '\n') = true) := by
      simp only [beq_iff_eq]
      exact h c (List.mem_cons_self c cs2)
    simp only [splitNL]
    rw [if_neg hc, ih (fun ch hch => h ch (List.mem_cons_of_mem c hch))]

/-- Splitting after a newline-free prefix peels off that prefix. -/
theorem splitNL_append (pre suf : List Char) (h : ∀ ch ∈ pre, ch ≠ '\n') :
    splitNL (pre ++ '\n' :: suf) = pre :: splitNL suf := by
  induction pre with
  | nil =>
    show splitNL ('\n' :: suf) = [] :: splitNL suf
    simp [splitNL]
  | cons c pre2 ih =>
    have hc : ¬ ((c == '\n') = true) := by
      simp only [beq_iff_eq]
      exact h c (List.mem_cons_self _ _)
    show splitNL (c :: (pre2 ++ '\n' :: suf)) = (c :: pre2) :: splitNL suf
    simp only [splitNL]
    rw [if_neg hc, ih (fun ch hch => h ch (List.mem_cons_of_mem c hch))]

/-- The character data of a newline join, one step. -/
theorem joinNL_cons_cons (s t : String) (rest : List String) :
    (joinNL (s :: t :: rest)).data = s.data ++ '\n' :: (joinNL (t :: rest)).data := by
  show (s ++ "\n" ++ joinNL (t :: rest)).data = _
  rw [show (s ++ "\n" ++ joinNL (t :: rest)).data
      = (s.data ++ ['\n']) ++ (joinNL (t :: rest)).data from rfl, List.append_assoc]
  rfl

/-- Splitting a newline join of newline-free lines recovers the lines. -/
theorem splitNL_joinNL : ∀ (lines : List String), lines ≠ [] →
    (∀ l ∈ lines, ∀ ch ∈ l.data, ch ≠ '\n') →
    splitNL ((joinNL lines).data) = lines.map String.data := by
  intro lines
  induction lines with
  | nil => intro h; exact absurd rfl h
  | cons s rest ih =>
    intro _ h
    cases rest with
    | nil =>
      show splitNL s.data = [s.data]
      exact splitNL_no_nl s.data (h s (by simp))
    | cons t rest2 =>
      rw [joinNL_cons_cons, splitNL_append _ _ (h s (by simp)),
        ih (by simp) (fun l hl => h l (by simp [hl]))]
      rfl

/-- Python splitlines is a left inverse of the newline join on nonempty,
newline-free lines. -/
theorem pySplitlines_joinNL (lines : List String) (hne : lines ≠ [])
    (hprop : ∀ l ∈ lines, l ≠ "" ∧ ∀ ch ∈ l.data, ch ≠ '\n') :
    pySplitlines (joinNL lines) = lines := by
  have hsplit := splitNL_joinNL lines hne (fun l hl => (hprop l hl).2)
  have hmapne : lines.map String.data ≠ [] := by
    cases lines with
    | nil => exact absurd rfl hne
    | cons s r => simp
  have hdne : (joinNL lines).data ≠ [] := by
    intro h0
    rw [h0] at hsplit
    have h1 : ([[]] : List (List Char)) = lines.map String.data := hsplit
    cases lines with
    | nil => exact hne rfl
    | cons s r =>
      cases r with
      | nil =>
        have h2 : s.data = [] := by simpa using h1.symm
        exact (hprop s (by simp)).1 (stringDataEq h2)
      | cons t r2 => simp at h1
  have hlast : ¬ ((lines.map String.data).getLast? = some ([] : List Char)) := by
    intro hsome
    rw [List.getLast?_eq_getLast _ hmapne] at hsome
    have hmem := List.getLast_mem hmapne
    rw [Option.some.inj hsome] at hmem
    obtain ⟨l, hl, hld⟩ := List.mem_map.mp hmem
    exact (hprop l hl).1 (stringDataEq hld)
  rw [pySplitlines, if_neg hdne]
  simp only [hsplit, if_neg hlast, List.map_map]
  have hid : ∀ l ∈ lines, (String.mk ∘ String.data) l = id l := fun l _ => rfl
  rw [List.map_congr_left hid, List.map_id]

/-- A status row is never the empty string (it contains the column spaces). -/
theorem statusRow_ne_empty (e : String × ClientInfo) : statusRow e ≠ "" := by
  intro h
  have h2 := congrArg String.data h
  simp only [statusRow, data_append] at h2
  simp [List.append_eq_nil, show (" ".data : List Char) = [' '] from rfl] at h2

/-- Claim C6 (amended): with an empty registry the rendering is the single
no-clients line; with at least one registered client the reply between
`STATUS-BEGIN` and `STATUS-END` is the header line, the dash separator,
and then exactly one row per registered client in insertion order.  The
no-newline hypothesis on the rows holds for every row the program builds
(names, addresses and formatted timestamps contain no newline). -/
theorem claim_C6_amended (c : Registry) (hne : c ≠ [])
    (hrows : ∀ e ∈ c, ∀ ch ∈ (statusRow e).data, ch ≠ '\n') :
    statusOut c
      = OutItem.line "STATUS-BEGIN" :: OutItem.line statusHeader :: OutItem.line statusDashes
        :: (c.map (fun e => OutItem.line (statusRow e))) ++ [OutItem.line "STATUS-END"]
    ∧ render_status [] = "No clients connected yet." := by
  refine ⟨?_, rfl⟩
  have hlines : pySplitlines (render_status c)
      = statusHeader :: statusDashes :: c.map statusRow := by
    rw [render_status, if_neg hne]
    apply pySplitlines_joinNL
    · simp
    · intro l hl
      rcases List.mem_cons.mp hl with h1 | hl2
      · subst h1
        exact ⟨by decide, by decide⟩
      · rcases List.mem_cons.mp hl2 with h1 | hl3
        · subst h1
          exact ⟨by decide, by decide⟩
        · obtain ⟨e, he, hrow⟩ := List.mem_map.mp hl3
          subst hrow
          exact ⟨statusRow_ne_empty e, hrows e he⟩
  rw [statusOut, hlines]
  simp [List.map_map]

/-- Counterexample for claim C6 as stated: with one registered client the
reply between the markers has three lines (header, separator, row), not
one row per client only. -/
theorem claim_C6_counterexample :
    statusOut [("Client01", ClientInfo.mk ("127.0.0.1", 40001) "2025-01-01 10:00:00" none)]
      ≠ [OutItem.line "STATUS-BEGIN",
         OutItem.line (statusRow ("Client01",
           ClientInfo.mk ("127.0.0.1", 40001) "2025-01-01 10:00:00" none)),
         OutItem.line "STATUS-END"] := by decide

/-- Witness for the amended claim C6 at a one-client registry. -/
theorem claim_C6_witness :
    (∀ e ∈ [("Client01", ClientInfo.mk ("127.0.0.1", 40001) "2025-01-01 10:00:00" none)],
      ∀ ch ∈ (statusRow e).data, ch ≠ '\n')
    ∧ statusOut [("Client01", ClientInfo.mk ("127.0.0.1", 40001) "2025-01-01 10:00:00" none)]
      = [OutItem.line "STATUS-BEGIN", OutItem.line statusHeader, OutItem.line statusDashes,
         OutItem.line (statusRow ("Client01",
           ClientInfo.mk ("127.0.0.1", 40001) "2025-01-01 10:00:00" none)),
         OutItem.line "STATUS-END"]
    ∧ render_status [] = "No clients connected yet." := by
  have h := claim_C6_amended
    [("Client01", ClientInfo.mk ("127.0.0.1", 40001) "2025-01-01 10:00:00" none)]
    (by decide) (by decide)
  exact ⟨by decide, h.1.trans (by decide), h.2⟩

/-! ## Path resolution lemmas -/

/-- Lexical resolution never introduces an empty component. -/
theorem resolveSteps_no_empty : ∀ (l acc : List String), "" ∉ acc → "" ∉ resolveSteps acc l := by
  intro l
  induction l with
  | nil => intro acc h; exact h
  | cons c cs ih =>
    intro acc h
    by_cases h1 : c = "" ∨ c = "."
    · simp only [resolveSteps]
      rw [if_pos h1]
      exact ih acc h
    · by_cases h2 : c = ".."
      · simp only [resolveSteps]
        rw [if_neg h1, if_pos h2]
        exact ih _ (fun hm => h ((List.dropLast_sublist acc).subset hm))
      · simp only [resolveSteps]
        rw [if_neg h1, if_neg h2]
        refine ih _ (fun hm => ?_)
        rcases List.mem_append.mp hm with hm2 | hm2
        · exact h hm2
        · rw [List.mem_singleton] at hm2
          exact h1 (Or.inl hm2.symm)

/-- Claim C1 (amended): provided no regular file sits at the sentinel path
`REPO_DIR/__INVALID__`, any `get` whose resolved path does not lie below the
repository root is answered with the single not-found error line, writing no
file bytes at all, exactly as a request for a missing file.  (The resolved
repository root is a nonempty absolute path with no empty components.) -/
theorem claim_C1_amended (root : List String) (fs : FS) (filename : String)
    (hroot : root ≠ []) (hclean : "" ∉ root)
    (hesc : ¬ underRoot root (resolvedCandidate root filename))
    (hsent : fsLookup fs (root ++ ["__INVALID__"]) = none) :
    handle_get root fs filename = [OutItem.line "ERROR File not found"] := by
  have hcand : "" ∉ resolvedCandidate root filename := by
    rw [resolvedCandidate]
    split
    · exact resolveSteps_no_empty _ [] (by simp)
    · exact resolveSteps_no_empty _ root hclean
  have hjoin : ¬ (resolvedCandidate root filename
      = joinName root (pathName (resolvedCandidate root filename))) := by
    intro hEq
    by_cases hpn : pathName (resolvedCandidate root filename) = ""
    · rw [hpn, joinName, if_pos rfl] at hEq
      rw [hEq] at hpn
      rw [pathName, List.getLast?_eq_getLast _ hroot] at hpn
      have hmem := List.getLast_mem hroot
      rw [show (some (root.getLast hroot)).getD "" = root.getLast hroot from rfl] at hpn
      rw [hpn] at hmem
      exact hclean hmem
    · rw [joinName, if_neg hpn] at hEq
      apply hesc
      constructor
      · rw [hEq, List.take_left]
      · rw [hEq]
        simp
  have hsj : safe_join_repo root filename = root ++ ["__INVALID__"] := by
    simp only [safe_join_repo]
    rw [if_neg (not_or.mpr ⟨hesc, hjoin⟩)]
  unfold handle_get
  rw [hsj, hsent]

/-- Counterexample for claim C1 as stated: when a regular file named
`__INVALID__` exists directly under the repository root, an escaping request
is not answered with the not-found line (the sentinel file is streamed), so
such requests are then distinguishable from requests for missing files. -/
theorem claim_C1_counterexample :
    (¬ underRoot ["app", "server_repo"]
        (resolvedCandidate ["app", "server_repo"] "../../etc/passwd"))
    ∧ handle_get ["app", "server_repo"] [(["app", "server_repo", "__INVALID__"], [42])]
        "../../etc/passwd"
      ≠ [OutItem.line "ERROR File not found"] := by decide

/-- Witness for the amended claim C1: with no sentinel file present, the
escaping request `../../etc/passwd` is answered with the not-found line. -/
theorem claim_C1_witness :
    (¬ underRoot ["app", "server_repo"]
        (resolvedCandidate ["app", "server_repo"] "../../etc/passwd"))
    ∧ fsLookup [(["app", "server_repo", "data.txt"], [7])]
        (["app", "server_repo"] ++ ["__INVALID__"]) = none
    ∧ handle_get ["app", "server_repo"] [(["app", "server_repo", "data.txt"], [7])]
        "../../etc/passwd"
      = [OutItem.line "ERROR File not found"] :=
  ⟨by decide, by decide,
    claim_C1_amended ["app", "server_repo"] [(["app", "server_repo", "data.txt"], [7])]
      "../../etc/passwd" (by decide) (by decide) (by decide) (by decide)⟩

/-- Claim C8 (code evaluated at the failing inputs): the command lines
`get ` and `get` — the get sub-forms with a missing filename — are echoed
with ` ACK` instead of receiving the usage error, because the dispatcher
strips the line before matching the verb `get ` (see the dead-branch
theorem below); the session continues either way. -/
theorem claim_C8_code_bug :
    commandLoop ["app", "server_repo"] [] [] ["get ", "hello"]
      = [OutItem.line "get ACK", OutItem.line "hello ACK"]
    ∧ commandLoop ["app", "server_repo"] [] [] ["get"]
      = [OutItem.line "get ACK"] := by decide

/-- Evaluating `Char.ofNat` at a valid code point and reading it back. -/
theorem toNat_ofNat_valid (n : Nat) (h : n.isValidChar) : (Char.ofNat n).toNat = n := by
  rw [Char.ofNat, dif_pos h]
  rfl

/-- ASCII case folding maps only the space character to the space character. -/
theorem lowerChar_eq_space {d : Char} (h : lowerChar d = ' ') : d = ' ' := by
  by_cases hr : 65 ≤ d.toNat ∧ d.toNat ≤ 90
  · exfalso
    rw [lowerChar, if_pos hr] at h
    have h2 := congrArg Char.toNat h
    rw [toNat_ofNat_valid (d.toNat + 32) (Or.inl (by omega))] at h2
    have : (' ' : Char).toNat = 32 := rfl
    omega
  · rw [lowerChar, if_neg hr] at h
    exact h

/-- The head of a `dropWhile` result never satisfies the predicate. -/
theorem dropWhile_head_not (p : Char → Bool) :
    ∀ (l : List Char) (c : Char) (r : List Char), l.dropWhile p = c :: r → p c = false := by
  intro l
  induction l with
  | nil => intro c r h; simp at h
  | cons x xs ih =>
    intro c r h
    by_cases hx : p x = true
    · rw [List.dropWhile_cons_of_pos hx] at h
      exact ih c r h
    · rw [List.dropWhile_cons_of_neg hx] at h
      rw [← (List.cons.inj h).1]
      exact Bool.eq_false_iff.mpr hx

/-- The last character of a nonempty stripped string is not whitespace. -/
theorem pyStrip_last (s : String) (c : Char)
    (h : (pyStrip s).data.getLast? = some c) : isPySpace c = false := by
  have hdata : (pyStrip s).data
      = ((s.data.dropWhile isPySpace).reverse.dropWhile isPySpace).reverse := rfl
  cases hr : (s.data.dropWhile isPySpace).reverse.dropWhile isPySpace with
  | nil => rw [hdata, hr] at h; simp at h
  | cons c0 r0 =>
    rw [hdata, hr, List.reverse_cons, List.getLast?_concat] at h
    rw [← Option.some.inj h]
    exact dropWhile_head_not isPySpace _ c0 r0 hr

/-- The usage-error branch of the `get` dispatch is unreachable: the line is
stripped before the verb match, so whenever the stripped line begins with
`get ` the text after the first space cannot strip to the empty string (that
would leave trailing whitespace on a stripped line).  Hence the server can
never send `ERROR Usage: get <filename>`. -/
theorem get_usage_branch_dead (line : String)
    (hget : pyStartsWith (lowerStr (pyStrip line)) "get " = true) :
    pyStrip (partitionAfterSpace (pyStrip line)) ≠ "" := by
  have htake : ((pyStrip line).data.map lowerChar).take 4 = ['g', 'e', 't', ' '] := by
    have h1 : ((lowerStr (pyStrip line)).data.take "get ".data.length) = "get ".data :=
      beq_iff_eq.mp hget
    rw [show (lowerStr (pyStrip line)).data = (pyStrip line).data.map lowerChar from rfl] at h1
    exact h1
  have hlen : 4 ≤ (pyStrip line).data.length := by
    have h2 := congrArg List.length htake
    rw [List.length_take, List.length_map,
      show (['g', 'e', 't', ' '] : List Char).length = 4 from rfl] at h2
    omega
  rcases hd : (pyStrip line).data with _ | ⟨d0, t0⟩
  · rw [hd] at hlen; simp at hlen
  rcases ht0 : t0 with _ | ⟨d1, t1⟩
  · rw [hd, ht0] at hlen; simp at hlen
  rcases ht1 : t1 with _ | ⟨d2, t2⟩
  · rw [hd, ht0, ht1] at hlen; simp at hlen
  rcases ht2 : t2 with _ | ⟨d3, rest⟩
  · rw [hd, ht0, ht1, ht2] at hlen; simp at hlen
  rw [hd, ht0, ht1, ht2] at htake
  have hchars : lowerChar d0 = 'g' ∧ lowerChar d1 = 'e' ∧ lowerChar d2 = 't'
      ∧ lowerChar d3 = ' ' := by
    simpa using htake
  have hd0 : d0 ≠ ' ' := by
    intro hEq; rw [hEq] at hchars
    exact absurd hchars.1 (by decide)
  have hd1 : d1 ≠ ' ' := by
    intro hEq; rw [hEq] at hchars
    exact absurd hchars.2.1 (by decide)
  have hd2 : d2 ≠ ' ' := by
    intro hEq; rw [hEq] at hchars
    exact absurd hchars.2.2.1 (by decide)
  have hd3 : d3 = ' ' := lowerChar_eq_space hchars.2.2.2
  have hpart : (partitionAfterSpace (pyStrip line)).data = rest := by
    rw [show (partitionAfterSpace (pyStrip line)).data
        = partAfterChar ' ' (pyStrip line).data from rfl, hd, ht0, ht1, ht2, hd3]
    simp only [partAfterChar]
    rw [if_neg (by simpa using hd0), if_neg (by simpa using hd1),
      if_neg (by simpa using hd2), if_pos (by simp)]
  intro hstrip
  have hallspace : ∀ x ∈ rest, isPySpace x = true := by
    have hdat : ((rest.dropWhile isPySpace).reverse.dropWhile isPySpace).reverse = [] := by
      have := congrArg String.data hstrip
      rw [show (pyStrip (partitionAfterSpace (pyStrip line))).data
          = (((partitionAfterSpace (pyStrip line)).data.dropWhile
              isPySpace).reverse.dropWhile isPySpace).reverse from rfl, hpart] at this
      exact this
    have hnil : (rest.dropWhile isPySpace).reverse.dropWhile isPySpace = [] := by
      have := congrArg List.reverse hdat
      simpa using this
    have hall2 : ∀ x ∈ (rest.dropWhile isPySpace).reverse, isPySpace x = true :=
      List.dropWhile_eq_nil_iff.mp hnil
    intro x hx
    rcases List.mem_append.mp
      (by rw [List.takeWhile_append_dropWhile] ; exact hx :
        x ∈ rest.takeWhile isPySpace ++ rest.dropWhile isPySpace) with hx2 | hx2
    · exact List.mem_takeWhile_imp hx2
    · exact hall2 x (List.mem_reverse.mpr hx2)
  have hlast : ∃ c, (pyStrip line).data.getLast? = some c ∧ isPySpace c = true := by
    cases hrest : rest with
    | nil =>
      refine ⟨' ', ?_, by decide⟩
      rw [hd, ht0, ht1, ht2, hd3, hrest]
      rfl
    | cons r0 rs =>
      have hrne : rest ≠ [] := by rw [hrest]; simp
      refine ⟨rest.getLast hrne, ?_, ?_⟩
      · rw [hd, ht0, ht1, ht2,
          show (d0 :: d1 :: d2 :: d3 :: rest) = [d0, d1, d2, d3] ++ rest from rfl,
          List.getLast?_append, List.getLast?_eq_getLast _ hrne]
        rfl
      · exact hallspace _ (List.getLast_mem hrne)
  obtain ⟨c, hc1, hc2⟩ := hlast
  rw [pyStrip_last line c hc1] at hc2
  exact Bool.false_ne_true hc2

/-- Claim C9 (amended): a non-empty received line whose verb matches none of
the commands is answered with the line stripped of surrounding whitespace
followed by ` ACK` (not the original line verbatim), and the session
continues with the next line. -/
theorem claim_C9_amended (root : List String) (fs : FS) (c : Registry) (line : String)
    (rest : List String)
    (h0 : pyStrip line ≠ "")
    (hexit : lowerStr (pyStrip line) ≠ "exit")
    (hlist : lowerStr (pyStrip line) ≠ "list")
    (hstatus : lowerStr (pyStrip line) ≠ "status")
    (hget : pyStartsWith (lowerStr (pyStrip line)) "get " = false) :
    commandLoop root fs c (line :: rest)
      = OutItem.line (pyStrip line ++ " ACK") :: commandLoop root fs c rest := by
  simp only [commandLoop]
  rw [if_neg h0, if_neg hexit, if_neg hlist, hget,
    if_neg Bool.false_ne_true, if_neg hstatus]

/-- Counterexample for claim C9 as stated: the non-command line ` hi` is
echoed as `hi ACK`, which is not the original line followed by ` ACK`. -/
theorem claim_C9_counterexample :
    commandLoop ["app"] [] [] [" hi", "exit"]
      = [OutItem.line "hi ACK", OutItem.line "BYE"]
    ∧ (" hi" ++ " ACK") ≠ "hi ACK" := by decide

/-- Witness for the amended claim C9 at the concrete line `hello world`. -/
theorem claim_C9_witness :
    (pyStrip "hello world" ≠ "" ∧ lowerStr (pyStrip "hello world") ≠ "exit"
      ∧ lowerStr (pyStrip "hello world") ≠ "list"
      ∧ lowerStr (pyStrip "hello world") ≠ "status"
      ∧ pyStartsWith (lowerStr (pyStrip "hello world")) "get " = false)
    ∧ commandLoop ["app"] [] [] ["hello world"] = [OutItem.line "hello world ACK"] := by
  refine ⟨⟨by decide, by decide, by decide, by decide, by decide⟩, ?_⟩
  have h := claim_C9_amended ["app"] [] [] "hello world" []
    (by decide) (by decide) (by decide) (by decide) (by decide)
  exact h.trans (by decide)

end TCPServer
